import Mathlib

/-!
Verification development for the Aura document-query system
(Next.js frontend + RAG answering pipeline).

The first part embeds the data model and operations; the second part
states and proves the properties.  Frontend definitions are translated
from the TypeScript sources (DocumentForm.tsx, AnswerDisplay.tsx,
types/api.ts); backend components absent from the repository snapshot
are modelled from the specification, as marked in their doc comments.
-/

namespace Aura

/-! ## API data types, from frontend/types/api.ts -/

/-- QuestionRequest from types/api.ts: one question string. -/
structure QuestionRequest where
  question : String
deriving Repr, DecidableEq

/-- HackRXRequest from types/api.ts: document URL plus question list. -/
structure HackRXRequest where
  document_url : String
  questions : List QuestionRequest
deriving Repr, DecidableEq

/-- AnswerResponse from types/api.ts.  The confidence field is optional
(`confidence?: number`), embedded as Option; floats are embedded as
rationals. -/
structure AnswerResponse where
  question : String
  answer : String
  sources : List String
  confidence : Option ℚ
deriving Repr, DecidableEq

/-- HackRXResponse from types/api.ts.  The field processing_time_ms is
declared optional there (`processing_time_ms?: number`), hence Option. -/
structure HackRXResponse where
  success : Bool
  document_url : String
  answers : List AnswerResponse
  processing_time_ms : Option Nat
deriving Repr, DecidableEq

/-! ## Form validation, from frontend/components/DocumentForm.tsx -/

/-- The per-question zod rule in formSchema:
`z.string().min(1).max(1000)` on the question field. -/
def questionOk (q : QuestionRequest) : Bool :=
  1 ≤ q.question.length && q.question.length ≤ 1000

/-- The zod formSchema in DocumentForm.tsx: documentUrl must satisfy
`z.string().url()` (URL validity is delegated to the zod library, so it
is a parameter urlOk here), and questions must be a list of 1 to 10
entries each passing questionOk.  react-hook-form invokes the submit
handler only when this schema accepts the form value, so a request is
sent to the backend (and ingestion can begin) only for accepted values. -/
def formSchemaAccepts (urlOk : String → Bool) (r : HackRXRequest) : Bool :=
  urlOk r.document_url &&
  (1 ≤ r.questions.length && r.questions.length ≤ 10) &&
  r.questions.all questionOk

/-! ## Question-field interactions, from DocumentForm.tsx -/

/-- addQuestion in DocumentForm.tsx: appends an empty question only when
fewer than 10 fields exist. -/
def addQuestion (fields : List String) : List String :=
  if fields.length < 10 then fields ++ [""] else fields

/-- removeQuestion in DocumentForm.tsx: removes the field at the given
index only when more than one field exists. -/
def removeQuestion (i : Nat) (fields : List String) : List String :=
  if 1 < fields.length then fields.eraseIdx i else fields

/-- The interactions that touch the question field array: the add
button, the per-row delete button, and typing into a field. -/
inductive FormOp
  | add
  | remove (i : Nat)
  | edit (i : Nat) (s : String)
deriving Repr, DecidableEq

/-- One interaction step on the field array. -/
def applyOp : FormOp → List String → List String
  | .add, fs => addQuestion fs
  | .remove i, fs => removeQuestion i fs
  | .edit i s, fs => fs.set i s

/-- A whole interaction sequence. -/
def runOps (ops : List FormOp) (fs : List String) : List String :=
  ops.foldl (fun fs op => applyOp op fs) fs

/-- The defaultValues of useForm in DocumentForm.tsx: a single empty
question. -/
def initialFields : List String := [""]

/-! ## Answer display, from frontend/components/AnswerDisplay.tsx -/

/-- The JavaScript expression `answer.confidence || 0` used in the
summary card: an absent confidence and a zero confidence both yield 0
(JavaScript treats both undefined and 0 as falsy). -/
def confOrZero (a : AnswerResponse) : ℚ :=
  match a.confidence with
  | none => 0
  | some c => if c = 0 then 0 else c

/-- What the summary card of AnswerDisplay shows. -/
structure RenderedSummary where
  questionCount : Nat
  averageConfidence : ℚ
deriving Repr, DecidableEq

/-- AnswerDisplay: `if (!answers || answers.length === 0) return null`,
otherwise it renders, and its summary card computes
`answers.reduce((acc, a) => acc + (a.confidence || 0), 0) / answers.length`.
The answers prop may be absent, hence Option on the input; the null
render is the none result. -/
def answerDisplay (answers : Option (List AnswerResponse)) : Option RenderedSummary :=
  match answers with
  | none => none
  | some as =>
    if as.length = 0 then none
    else some ⟨as.length, (as.map confOrZero).sum / (as.length : ℚ)⟩

/-- The guard `{processingTime && (...)}` in AnswerDisplay: the
processing-time line is rendered only when the prop is present and
nonzero (JavaScript truthiness). -/
def showsProcessingTime (processingTime : Option Nat) : Bool :=
  match processingTime with
  | none => false
  | some t => t ≠ 0

/-! ## Chunker

The backend chunker is not part of the repository snapshot (only the
frontend and the README are present), so it is modelled from the
specification. -/

/-- Chunk from the spec data model: `{ index, text, char_start, char_end }`.
Text is embedded as a list of characters. -/
structure Chunk where
  index : Nat
  text : List Char
  char_start : Nat
  char_end : Nat
deriving Repr, DecidableEq

/-- Modelled from the spec: the chunker loop of section 4.1 (backend
source absent from the snapshot).  Starting at position start, it emits
the window of at most window_size characters at start and advances by
window_size - overlap, while start is inside the text.  The guard
overlap < window_size is the stated precondition of the chunker and
makes the loop terminate. -/
def chunkFrom (text : List Char) (window_size overlap : Nat) (start idx : Nat) :
    List Chunk :=
  if h : overlap < window_size ∧ start < text.length then
    { index := idx, text := (text.drop start).take window_size,
      char_start := start,
      char_end := min (start + window_size) text.length } ::
      chunkFrom text window_size overlap (start + (window_size - overlap)) (idx + 1)
  else []
termination_by text.length - start
decreasing_by
  have h1 : 0 < window_size - overlap := Nat.sub_pos_of_lt h.1
  omega

/-- Modelled from the spec: `chunk(text, window_size, overlap)` splits
the whole text by the sliding window starting at position 0. -/
def chunk (text : List Char) (window_size overlap : Nat) : List Chunk :=
  chunkFrom text window_size overlap 0 0

/-- Reassembly for the round-trip property: the chunk text spans are
concatenated in order, with each chunk is leading overlap characters
(its overlap with the previous chunk; empty for the first chunk)
removed first. -/
def glueTail (overlap : Nat) (cs : List Chunk) : List Char :=
  (cs.map (fun c => c.text.drop overlap)).foldr (· ++ ·) []

/-- Concatenate the chunk texts in order, dropping from every chunk
after the first its leading overlap characters. -/
def reassemble (overlap : Nat) : List Chunk → List Char
  | [] => []
  | c :: cs => c.text ++ glueTail overlap cs

/-! ## Retriever

Modelled from the specification (backend source absent from the
snapshot). -/

/-- One entry of a Retrieval Result: `{ chunk_text, relevance_score }`,
scores embedded as rationals. -/
structure ScoredChunk where
  chunk_text : String
  relevance_score : ℚ
deriving Repr, DecidableEq

/-- Modelled from the spec: the Retriever of section 4.5 (backend source
absent from the snapshot).  It queries the vector index for the top k
entries for the embedded question and filters out every entry whose
relevance score is below min_relevance.  The raw, score-descending query
output of the vector store is the first argument. -/
def retrieveFilter (queryResults : List ScoredChunk) (k : Nat)
    (min_relevance : ℚ) : List ScoredChunk :=
  (queryResults.take k).filter (fun c => min_relevance ≤ c.relevance_score)

/-- Relevance scores are non-increasing along the list. -/
def scoresDescending (l : List ScoredChunk) : Prop :=
  l.Pairwise (fun a b => b.relevance_score ≤ a.relevance_score)

/-! ## Answer Synthesizer

Modelled from the specification (backend source absent from the
snapshot). -/

/-- A field value of the structured language-model output: numeric or
not (a confidence field that is not a number makes the output
malformed). -/
inductive LMFieldValue
  | num (value : ℚ)
  | nonNumeric (text : String)
deriving Repr, DecidableEq

/-- Modelled from the spec: the structured output of the black-box
language-model service.  Each expected field may be missing, and the
raw output text is always available for the fallback. -/
structure LMOutput where
  rawText : String
  answerField : Option String
  sourcesField : Option (List String)
  confidenceField : Option LMFieldValue
deriving Repr, DecidableEq

/-- A fully parsed well-formed model answer. -/
structure ParsedAnswer where
  answerText : String
  sources : List String
  confidence : ℚ
deriving Repr, DecidableEq

/-- Modelled from the spec: parsing the structured output into the
tagged variant of section 9 — some parsed answer when all fields are
present and the confidence is numeric, none (malformed) otherwise. -/
def parseLMOutput (out : LMOutput) : Option ParsedAnswer :=
  match out.answerField, out.sourcesField, out.confidenceField with
  | some a, some s, some (.num c) => some ⟨a, s, c⟩
  | _, _, _ => none

/-- Modelled from the spec: the fixed answer returned without any
external call when no relevant context was retrieved — empty sources
and confidence exactly 0. -/
def insufficientAnswer (question : String) : AnswerResponse :=
  { question := question
    answer := "insufficient information in document"
    sources := []
    confidence := some 0 }

/-- Modelled from the spec: the prompt sent to the language-model
service, instructing it to answer strictly from the supplied chunks,
cite them, and emit a confidence estimate. -/
def buildPrompt (question : String) (chunks : List String) : String :=
  "Answer strictly from the context chunks below, cite the chunks you use, and give a confidence estimate." ++
    String.intercalate " " chunks ++ " Question: " ++ question

/-- Modelled from the spec: `synthesize(question, retrieved_chunks)` of
section 4.6.  The language-model service is the function argument lm;
the second component of the result counts the calls made to it.  Empty
retrieved chunks skip the external call; a malformed output falls back
to the raw output text with all supplied chunks as sources and no
confidence; synthesize always returns an Answer Record, never an
error. -/
def synthesize (lm : String → LMOutput) (question : String)
    (chunks : List String) : AnswerResponse × Nat :=
  if chunks.isEmpty then
    (insufficientAnswer question, 0)
  else
    let out := lm (buildPrompt question chunks)
    match parseLMOutput out with
    | some p =>
      ({ question := question, answer := p.answerText,
         sources := p.sources, confidence := some p.confidence }, 1)
    | none =>
      ({ question := question, answer := out.rawText,
         sources := chunks, confidence := none }, 1)

/-! ## Document Cache

Modelled from the specification (backend source absent from the
snapshot). -/

/-- The cached state for one document key: pending (with the caller
that owns the ingestion run) or ready (with the chunk count of the
ingested document).  An unseen key has no state (none below). -/
inductive CacheStatus
  | pending (owner : Nat)
  | ready (chunkCount : Nat)
deriving Repr, DecidableEq

/-- What one caller of get_or_create learns. -/
inductive GOCResult
  | startIngestion
  | awaitPending (owner : Nat)
  | alreadyReady (chunkCount : Nat)
deriving Repr, DecidableEq

/-- Modelled from the spec: `get_or_create(document_key)` of section
4.4, restricted to one document key, whose cached state is the Option
argument.  The check-and-set is atomic: the state inspection and the
transition to pending happen in one step.  The unseen caller becomes
the owner and must ingest; any other caller observes the existing
state. -/
def getOrCreate (caller : Nat) (s : Option CacheStatus) :
    Option CacheStatus × GOCResult :=
  match s with
  | none => (some (.pending caller), .startIngestion)
  | some (.pending o) => (some (.pending o), .awaitPending o)
  | some (.ready n) => (some (.ready n), .alreadyReady n)

/-- Modelled from the spec: `mark_ready(document_key, chunk_count)` —
the pending-to-ready transition; any other state is left unchanged. -/
def markReady (chunkCount : Nat) (s : Option CacheStatus) : Option CacheStatus :=
  match s with
  | some (.pending _) => some (.ready chunkCount)
  | other => other

/-- An interleaving of N concurrent get_or_create calls is a list of
caller ids in their serialization order (get_or_create is atomic, so
any concurrent execution serializes into such a list).  The calls run
left to right; the result pairs each caller with what it learned. -/
def runGetOrCreate (callers : List Nat) (s : Option CacheStatus) :
    Option CacheStatus × List (Nat × GOCResult) :=
  match callers with
  | [] => (s, [])
  | c :: cs =>
    let step := getOrCreate c s
    let rest := runGetOrCreate cs step.1
    (rest.1, (c, step.2) :: rest.2)

/-! ## Pipeline Orchestrator: answer aggregation

Modelled from the specification (backend source absent from the
snapshot). -/

/-- Modelled from the spec: the error-marker Answer Record used when no
completed result exists for a question index. -/
def errorAnswer : AnswerResponse :=
  { question := "", answer := "error: question processing failed",
    sources := [], confidence := none }

/-- Modelled from the spec: the orchestrator collects per-question
results tagged with their input index as they complete (in arbitrary
completion order) and places each at its input position in the final
answers array. -/
def aggregateAnswers (n : Nat) (completed : List (Nat × AnswerResponse)) :
    List AnswerResponse :=
  (List.range n).map (fun i =>
    match completed.find? (fun p => p.1 == i) with
    | some p => p.2
    | none => errorAnswer)

/-! ## Sample values used in witness statements -/

/-- A small concrete answers list. -/
def sampleAnswers : List AnswerResponse :=
  [⟨"q1", "a1", ["s1"], some (1/2)⟩, ⟨"q2", "a2", [], none⟩]

/-- A successful response value without processing_time_ms; it is a
legal value of the HackRXResponse declaration, whose
processing_time_ms field is optional. -/
def responseWithoutTime : HackRXResponse :=
  { success := true
    document_url := "https://example.com/doc.pdf"
    answers := [⟨"q", "a", [], some 1⟩]
    processing_time_ms := none }

/-!
# Theorems
-/

/-! ## Helper lemmas -/

/-- The summary expression answer.confidence or-else 0 equals getD 0:
the JavaScript or-operator maps undefined to 0 and keeps any number,
since 0 itself is also mapped to 0. -/
theorem confOrZero_eq_getD (a : AnswerResponse) :
    confOrZero a = a.confidence.getD 0 := by
  cases h : a.confidence with
  | none => simp [confOrZero, h]
  | some c =>
    simp only [confOrZero, h, Option.getD_some]
    rcases eq_or_ne c 0 with hc | hc <;> simp [hc]

/-- One form interaction preserves the field-count bounds. -/
theorem applyOp_length_bounds (op : FormOp) (fs : List String)
    (h1 : 1 ≤ fs.length) (h2 : fs.length ≤ 10) :
    1 ≤ (applyOp op fs).length ∧ (applyOp op fs).length ≤ 10 := by
  cases op with
  | add =>
    simp only [applyOp, addQuestion]
    split
    · rename_i h
      simp only [List.length_append, List.length_cons, List.length_nil]
      omega
    · exact ⟨h1, h2⟩
  | remove i =>
    simp only [applyOp, removeQuestion]
    split
    · rename_i h
      rw [List.length_eraseIdx fs i]
      split <;> omega
    · exact ⟨h1, h2⟩
  | edit i s =>
    simpa only [applyOp, List.length_set] using ⟨h1, h2⟩

/-! ## C1: form validation bounds -/

/-- C1: A request is accepted by the form schema exactly when the
document URL is valid (per the delegated URL check), the question list
has between 1 and 10 elements, and every question string has between 1
and 1000 characters; any request violating these bounds is rejected,
and since the submit handler only fires on accepted values, rejection
happens before any backend call, hence before ingestion begins. -/
theorem formSchema_validates (urlOk : String → Bool) (r : HackRXRequest) :
    formSchemaAccepts urlOk r = true ↔
      (urlOk r.document_url = true ∧
       1 ≤ r.questions.length ∧ r.questions.length ≤ 10 ∧
       ∀ q ∈ r.questions, 1 ≤ q.question.length ∧ q.question.length ≤ 1000) := by
  simp only [formSchemaAccepts, questionOk, Bool.and_eq_true, decide_eq_true_eq,
    List.all_eq_true, and_assoc]

/-- Witness: a concrete in-bounds request is accepted. -/
theorem formSchema_validates_witness :
    formSchemaAccepts (fun u => u == "https://example.com/doc.pdf")
      ⟨"https://example.com/doc.pdf", [⟨"What is covered?"⟩]⟩ = true :=
  (formSchema_validates (fun u => u == "https://example.com/doc.pdf")
    ⟨"https://example.com/doc.pdf", [⟨"What is covered?"⟩]⟩).mpr (by decide)

/-! ## C9: question-field count invariant -/

/-- C9: Starting from the single initial question field, every sequence
of add, remove and edit interactions leaves between 1 and 10 question
fields: addQuestion appends only below 10 fields and removeQuestion
removes only above 1 field, so no interaction sequence can empty the
list or grow it past 10. -/
theorem documentForm_field_bounds (ops : List FormOp) :
    1 ≤ (runOps ops initialFields).length ∧
      (runOps ops initialFields).length ≤ 10 := by
  suffices h : ∀ fs : List String, 1 ≤ fs.length → fs.length ≤ 10 →
      1 ≤ (runOps ops fs).length ∧ (runOps ops fs).length ≤ 10 by
    exact h initialFields (by decide) (by decide)
  induction ops with
  | nil => intro fs h1 h2; exact ⟨h1, h2⟩
  | cons op rest ih =>
    intro fs h1 h2
    have hstep := applyOp_length_bounds op fs h1 h2
    exact ih (applyOp op fs) hstep.1 hstep.2

/-! ## C10: answer display safety -/

/-- C10: AnswerDisplay renders nothing exactly when the answers array
is absent or empty; whenever it renders a summary, the length of the
answers array is nonzero as a rational (so the average is never a
division by zero) and the displayed average confidence is the sum of
the per-answer confidences, an absent confidence counted as 0, divided
by the number of answers. -/
theorem answerDisplay_null_and_average (answers : Option (List AnswerResponse)) :
    (answerDisplay answers = none ↔ answers = none ∨ answers = some []) ∧
    (∀ as r, answers = some as → answerDisplay answers = some r →
      ((as.length : ℚ) ≠ 0 ∧
       r.averageConfidence =
         (as.map (fun a => a.confidence.getD 0)).sum / (as.length : ℚ))) := by
  constructor
  · cases answers with
    | none => simp [answerDisplay]
    | some as =>
      cases as with
      | nil => simp [answerDisplay]
      | cons a t => simp [answerDisplay]
  · intro as r hsome hdisp
    subst hsome
    cases as with
    | nil => simp [answerDisplay] at hdisp
    | cons a t =>
      simp only [answerDisplay, List.length_cons, Nat.succ_ne_zero, if_false] at hdisp
      have hlen : ((a :: t).length : ℚ) ≠ 0 := by
        simp [List.length_cons]
        positivity
      refine ⟨hlen, ?_⟩
      have hmap : (a :: t).map confOrZero
          = (a :: t).map (fun x => x.confidence.getD 0) :=
        List.map_congr_left (fun x _ => confOrZero_eq_getD x)
      injection hdisp with hr
      subst hr
      simp only [List.length_cons] at hmap ⊢
      rw [hmap]

/-- Witness: the display at a concrete two-answer list has a nonzero
denominator and the stated average. -/
theorem answerDisplay_witness :
    ((sampleAnswers.length : ℚ) ≠ 0 ∧
     RenderedSummary.averageConfidence ⟨2, 1/4⟩ =
       (sampleAnswers.map (fun a => a.confidence.getD 0)).sum /
         (sampleAnswers.length : ℚ)) :=
  (answerDisplay_null_and_average (some sampleAnswers)).2 sampleAnswers
    ⟨2, 1/4⟩ rfl (by norm_num [answerDisplay, sampleAnswers, confOrZero])

/-! ## C7: processing_time_ms is optional, not guaranteed -/

/-- C7 counterexample: it is not the case that every successful
response carries a processing_time_ms value — the HackRXResponse
declaration marks the field optional, and a successful response value
without it exists. -/
theorem processing_time_not_always_present :
    ¬ (∀ r : HackRXResponse, r.success = true →
        r.processing_time_ms.isSome = true) := by
  intro h
  have hx := h responseWithoutTime rfl
  simp [responseWithoutTime] at hx

/-- C7 amended: a successful Pipeline Response may omit
processing_time_ms (the field is optional in the response type), and
the frontend shows the processing time exactly when the field is
present with a nonzero value. -/
theorem processing_time_optional (r : HackRXResponse) :
    (responseWithoutTime.success = true ∧
     responseWithoutTime.processing_time_ms = none) ∧
    (showsProcessingTime r.processing_time_ms = true ↔
      ∃ t, r.processing_time_ms = some t ∧ t ≠ 0) := by
  refine ⟨⟨rfl, rfl⟩, ?_⟩
  cases h : r.processing_time_ms with
  | none => simp [showsProcessingTime]
  | some t => simp [showsProcessingTime]

/-- Witness: the amended statement at a concrete response that does
carry a nonzero processing time. -/
theorem processing_time_optional_witness :
    (responseWithoutTime.success = true ∧
     responseWithoutTime.processing_time_ms = none) ∧
    (showsProcessingTime (HackRXResponse.processing_time_ms
        ⟨true, "https://example.com/doc.pdf", [], some 2500⟩) = true ↔
      ∃ t, HackRXResponse.processing_time_ms
        ⟨true, "https://example.com/doc.pdf", [], some 2500⟩ = some t ∧ t ≠ 0) :=
  processing_time_optional ⟨true, "https://example.com/doc.pdf", [], some 2500⟩

/-! ## C2: chunker round trip -/

/-- Unfolding glueTail on an empty chunk list. -/
theorem glueTail_nil (o : Nat) : glueTail o [] = [] := rfl

/-- Unfolding glueTail on a cons. -/
theorem glueTail_cons (o : Nat) (c : Chunk) (cs : List Chunk) :
    glueTail o (c :: cs) = c.text.drop o ++ glueTail o cs := rfl

/-- Unfolding reassemble on a cons. -/
theorem reassemble_cons (o : Nat) (c : Chunk) (cs : List Chunk) :
    reassemble o (c :: cs) = c.text ++ glueTail o cs := rfl

/-- Key lemma: gluing all chunks from position start, each with its
leading overlap characters dropped, yields exactly the text from
position start + overlap on. -/
theorem glueTail_chunkFrom (text : List Char) (w o : Nat) (ho : o < w) :
    ∀ n start idx, text.length - start ≤ n →
      glueTail o (chunkFrom text w o start idx) = text.drop (start + o) := by
  intro n
  induction n with
  | zero =>
    intro start idx h
    rw [chunkFrom.eq_def, dif_neg (by omega : ¬(o < w ∧ start < text.length)),
      glueTail_nil, List.drop_eq_nil_of_le (by omega)]
  | succ n ih =>
    intro start idx h
    by_cases hs : start < text.length
    · rw [chunkFrom.eq_def, dif_pos ⟨ho, hs⟩, glueTail_cons]
      have hrec := ih (start + (w - o)) (idx + 1) (by omega)
      rw [hrec]
      have h1 : ((text.drop start).take w).drop o
          = ((text.drop start).drop o).take (w - o) := List.drop_take w o _
      have h2 : (text.drop start).drop o = text.drop (start + o) :=
        List.drop_drop o start text
      have h3 : start + (w - o) + o = start + o + (w - o) := by omega
      have h4 : text.drop (start + o + (w - o))
          = (text.drop (start + o)).drop (w - o) :=
        (List.drop_drop (w - o) (start + o) text).symm
      show ((text.drop start).take w).drop o
          ++ text.drop (start + (w - o) + o) = text.drop (start + o)
      rw [h1, h2, h3, h4, List.take_append_drop]
    · rw [chunkFrom.eq_def, dif_neg (by omega : ¬(o < w ∧ start < text.length)),
        glueTail_nil, List.drop_eq_nil_of_le (by omega)]

/-- C2: For every non-empty text and every window_size and overlap with
overlap < window_size, concatenating the chunk text spans produced by
chunk in order, with each chunk after the first stripped of its leading
overlap characters (the first chunk has no preceding chunk to overlap),
reconstructs the text exactly. -/
theorem chunk_roundTrip (text : List Char) (window_size overlap : Nat)
    (hne : text ≠ []) (ho : overlap < window_size) :
    reassemble overlap (chunk text window_size overlap) = text := by
  have hlen : 0 < text.length := List.length_pos.mpr hne
  rw [chunk, chunkFrom.eq_def, dif_pos ⟨ho, hlen⟩, reassemble_cons]
  rw [glueTail_chunkFrom text window_size overlap ho text.length _ _ (by omega)]
  show (text.drop 0).take window_size
      ++ text.drop (0 + (window_size - overlap) + overlap) = text
  have h1 : 0 + (window_size - overlap) + overlap = window_size := by omega
  rw [List.drop_zero, h1, List.take_append_drop]

/-- Witness: round trip at a concrete text with window 5 and overlap 2. -/
theorem chunk_roundTrip_witness :
    ("abcdefghij".toList ≠ [] ∧ 2 < 5) ∧
      reassemble 2 (chunk "abcdefghij".toList 5 2) = "abcdefghij".toList :=
  ⟨⟨by decide, by decide⟩, chunk_roundTrip "abcdefghij".toList 5 2 (by decide) (by decide)⟩

/-! ## C3: answers preserve input question order -/

/-- Helper: looking up index i in the tagged completion list of any
completion order containing i yields the result computed for question
i. -/
theorem find?_completion (g : Nat → AnswerResponse) (i : Nat) :
    ∀ perm : List Nat, i ∈ perm →
      (perm.map (fun j => (j, g j))).find? (fun p => p.1 == i) = some (i, g i) := by
  intro perm hmem
  induction perm with
  | nil => cases hmem
  | cons j rest ih =>
    by_cases hji : j = i
    · subst hji
      rw [List.map_cons]
      exact List.find?_cons_of_pos _ (by simp)
    · have hmem' : i ∈ rest := by
        cases List.mem_cons.mp hmem with
        | inl h => exact absurd h.symm hji
        | inr h => exact h
      rw [List.map_cons, List.find?_cons_of_neg _ (by simp [hji]), ih hmem']

/-- Helper: mapping a function over a list equals mapping over the
range of its indices with getD lookups. -/
theorem map_eq_range_getD (f : String → AnswerResponse) :
    ∀ qs : List String,
      qs.map f = (List.range qs.length).map (fun i => f (qs.getD i "")) := by
  intro qs
  induction qs with
  | nil => rfl
  | cons q rest ih =>
    rw [List.length_cons, List.range_succ_eq_map, List.map_cons, List.map_cons,
      List.map_map]
    simp only [List.getD_cons_zero, Function.comp]
    congr 1

/-- C3: Whatever order the per-question work completes in (any
permutation of the question indices), the aggregated answers array
contains exactly one Answer Record per input question in the input
order: aggregating the tagged completions equals mapping the
per-question work over the questions in order. -/
theorem answers_preserve_order (f : String → AnswerResponse) (qs : List String)
    (perm : List Nat) (hperm : perm.Perm (List.range qs.length)) :
    aggregateAnswers qs.length (perm.map (fun i => (i, f (qs.getD i "")))) =
      qs.map f := by
  rw [aggregateAnswers, map_eq_range_getD f qs]
  apply List.map_congr_left
  intro i hi
  have himem : i ∈ perm := hperm.mem_iff.mpr hi
  rw [find?_completion (fun j => f (qs.getD j "")) i perm himem]

/-- Witness: two questions completed in reversed order still aggregate
to the input order. -/
theorem answers_preserve_order_witness :
    aggregateAnswers (["q1", "q2"] : List String).length
        (([1, 0] : List Nat).map (fun i =>
          (i, (fun q => AnswerResponse.mk q "ans" [] none)
            ((["q1", "q2"] : List String).getD i "")))) =
      (["q1", "q2"] : List String).map (fun q => AnswerResponse.mk q "ans" [] none) :=
  answers_preserve_order (fun q => ⟨q, "ans", [], none⟩) ["q1", "q2"] [1, 0]
    (by decide)

/-! ## C4: retrieval result invariants -/

/-- C4: Whenever the raw vector-store query output is score-descending
with scores in the unit interval (the stated contract of the black-box
vector store), the Retrieval Result has at most k entries, its scores
are non-increasing and lie in the unit interval, and no entry scores
below min_relevance — also when fewer than k entries survive the
filter. -/
theorem retrieve_invariants (raw : List ScoredChunk) (k : Nat)
    (min_relevance : ℚ)
    (hsorted : scoresDescending raw)
    (hrange : ∀ c ∈ raw, 0 ≤ c.relevance_score ∧ c.relevance_score ≤ 1) :
    (retrieveFilter raw k min_relevance).length ≤ k ∧
    scoresDescending (retrieveFilter raw k min_relevance) ∧
    ∀ c ∈ retrieveFilter raw k min_relevance,
      (0 ≤ c.relevance_score ∧ c.relevance_score ≤ 1) ∧
        min_relevance ≤ c.relevance_score := by
  have hsub1 : List.Sublist (retrieveFilter raw k min_relevance) (raw.take k) :=
    List.filter_sublist _
  have hsub : List.Sublist (retrieveFilter raw k min_relevance) raw :=
    hsub1.trans (List.take_sublist k raw)
  refine ⟨?_, ?_, ?_⟩
  · exact le_trans hsub1.length_le (List.length_take_le k raw)
  · exact List.Pairwise.sublist hsub hsorted
  · intro c hc
    have hmem := List.mem_filter.mp hc
    have hcraw : c ∈ raw := List.mem_of_mem_take hmem.1
    exact ⟨hrange c hcraw, by simpa using hmem.2⟩

/-- Witness: a concrete descending in-range query output filtered at
threshold 1 with k = 2. -/
theorem retrieve_invariants_witness :
    ((retrieveFilter [⟨"a", 1⟩, ⟨"b", 1⟩, ⟨"c", 0⟩] 2 1).length ≤ 2 ∧
     scoresDescending (retrieveFilter [⟨"a", 1⟩, ⟨"b", 1⟩, ⟨"c", 0⟩] 2 1) ∧
     ∀ c ∈ retrieveFilter [⟨"a", 1⟩, ⟨"b", 1⟩, ⟨"c", 0⟩] 2 1,
       (0 ≤ c.relevance_score ∧ c.relevance_score ≤ 1) ∧
         1 ≤ c.relevance_score) :=
  retrieve_invariants [⟨"a", 1⟩, ⟨"b", 1⟩, ⟨"c", 0⟩] 2 1
    (by norm_num [scoresDescending])
    (by intro c hc; fin_cases hc <;> norm_num)

/-! ## C5: malformed model output falls back without failing -/

/-- C5: For every question and every non-empty chunk list, if the
language-model service output parses as malformed, synthesize returns
(it never throws) an Answer Record whose answer text is the raw output
text, whose sources are exactly the supplied chunks, and whose
confidence is absent — and it made exactly one service call. -/
theorem synthesize_malformed_fallback (lm : String → LMOutput)
    (question : String) (chunks : List String) (hne : chunks ≠ [])
    (hmal : parseLMOutput (lm (buildPrompt question chunks)) = none) :
    synthesize lm question chunks =
      ({ question := question
         answer := (lm (buildPrompt question chunks)).rawText
         sources := chunks
         confidence := none }, 1) := by
  have hbool : chunks.isEmpty = false := by
    cases chunks with
    | nil => exact absurd rfl hne
    | cons a t => rfl
  simp only [synthesize, hbool, Bool.false_eq_true, if_false, hmal]

/-- Witness: a service returning output with all fields missing, on two
chunks. -/
theorem synthesize_malformed_fallback_witness :
    ((["c1", "c2"] : List String) ≠ [] ∧
      parseLMOutput ((fun _ => LMOutput.mk "the raw output" none none none)
        (buildPrompt "q" ["c1", "c2"])) = none) ∧
    synthesize (fun _ => LMOutput.mk "the raw output" none none none) "q"
        ["c1", "c2"] =
      ({ question := "q", answer := "the raw output",
         sources := ["c1", "c2"], confidence := none }, 1) :=
  ⟨⟨by decide, rfl⟩,
    synthesize_malformed_fallback (fun _ => LMOutput.mk "the raw output" none none none)
      "q" ["c1", "c2"] (by decide) rfl⟩

/-! ## C6: empty retrieval skips the model call -/

/-- C6: For every question, synthesize on an empty chunk list returns
the fixed insufficient-information Answer Record — empty sources,
confidence exactly 0 — makes zero calls to the language-model service,
and returns rather than raising. -/
theorem synthesize_empty_chunks (lm : String → LMOutput) (question : String) :
    synthesize lm question [] = (insufficientAnswer question, 0) ∧
    (insufficientAnswer question).answer = "insufficient information in document" ∧
    (insufficientAnswer question).sources = [] ∧
    (insufficientAnswer question).confidence = some 0 :=
  ⟨rfl, rfl, rfl, rfl⟩

/-! ## C8: single ingestion per document key -/

/-- Helper: once a key is seen (pending or ready), further
get_or_create calls never start an ingestion and never change the
state. -/
theorem runGetOrCreate_seen (st : CacheStatus) :
    ∀ callers : List Nat,
      (runGetOrCreate callers (some st)).1 = some st ∧
      (runGetOrCreate callers (some st)).2.countP
        (fun p => p.2 == GOCResult.startIngestion) = 0 := by
  intro callers
  induction callers with
  | nil => exact ⟨rfl, rfl⟩
  | cons c cs ih =>
    cases st with
    | pending o =>
      simp only [runGetOrCreate, getOrCreate, List.countP_cons]
      exact ⟨ih.1, by simp [ih.2]⟩
    | ready n =>
      simp only [runGetOrCreate, getOrCreate, List.countP_cons]
      exact ⟨ih.1, by simp [ih.2]⟩

/-- C8: For every serialization of N concurrent get_or_create calls for
one unseen document key (the call is an atomic check-and-set, so every
concurrent execution serializes into some caller order), exactly one
caller is told to start ingestion; and once that ingestion completes
via mark_ready, every one of the callers observes the same ready
record with the ingested chunk count. -/
theorem cache_single_ingestion (c : Nat) (cs : List Nat) (chunkCount : Nat) :
    (runGetOrCreate (c :: cs) none).2.countP
        (fun p => p.2 == GOCResult.startIngestion) = 1 ∧
    ∀ caller : Nat,
      (getOrCreate caller
          (markReady chunkCount (runGetOrCreate (c :: cs) none).1)).2 =
        GOCResult.alreadyReady chunkCount := by
  have hrun : runGetOrCreate (c :: cs) none =
      ((runGetOrCreate cs (some (.pending c))).1,
        (c, GOCResult.startIngestion) ::
          (runGetOrCreate cs (some (.pending c))).2) := rfl
  have hseen := runGetOrCreate_seen (.pending c) cs
  constructor
  · rw [hrun]
    simp only [List.countP_cons]
    simp [hseen.2]
  · intro caller
    rw [hrun]
    simp only
    rw [hseen.1]
    rfl

end Aura
